import Mathlib

/-!
Verification development for the layer-export core of `pds-pre-view`.

The definitions below are a shallow embedding of the TypeScript source:

* `sanitizeFileName`            — `src/utils/exportUtils.ts`
* `encodeBlp`                   — `src/utils/encoders/blp.ts`
* `encodeTga`                   — `src/utils/encoders/tga.ts`
* `flattenLayers`               — psd parsing module (`flattenLayers`)
* `buildLayerTree`              — psd parsing module (`buildLayerTree`)
* `flattenTree`                 — psd parsing module (`extractLayerTree`)
* `getLayerOpacity`             — `src/utils/layerUtils.ts`
* `exportLayersToFolder`        — `src/utils/exportUtils.ts`
* `exportLayerTreeWithStructure`/`exportNode` — `src/utils/hierarchicalExport.ts`

JavaScript conventions are translated as follows: an optional field is an
`Option`; `x ?? d` is `Option.getD`; a truthiness test on a string is a
comparison with `""`; a truthiness test on an object field is `Option.isSome`;
`DataView.setUint32`/`setUint16` wrap their argument modulo `2^32`/`2^16`
(written with the literals `4294967296`/`65536`).  Numbers are embedded as
`ℤ`/`ℚ`/`Nat` as appropriate; byte buffers are `List Nat`.  File-system and
canvas side effects are modelled by explicit event lists and oracles.
-/

namespace PdsPreView

/-! ## Filename sanitization (`src/utils/exportUtils.ts`, lines 18–23) -/

/-- Characters of the regex class `[<>:"/\\|?*]` in
`name.replace(/[<>:"/\\|?*]/g, '_')`. -/
def illegalChar (c : Char) : Bool :=
  ['<', '>', ':', '\"', '/', '\\', '|', '?', '*'].contains c

/-- The JavaScript `\s` character class (also the set trimmed by
`String.prototype.trim`): space, `\t`, `\n`, `\v`, `\f`, `\r`, NBSP, BOM,
and the Unicode space separators and line/paragraph separators. -/
def jsWhitespace (c : Char) : Bool :=
  [' ', '\t', '\n', '\x0B', '\x0C', '\r', '\u00A0', '\uFEFF', '\u1680',
   '\u2000', '\u2001', '\u2002', '\u2003', '\u2004', '\u2005', '\u2006',
   '\u2007', '\u2008', '\u2009', '\u200A', '\u2028', '\u2029', '\u202F',
   '\u205F', '\u3000'].contains c

/-- First replace of `sanitizeFileName`: every illegal character is replaced
by `'_'` (the `g` flag replaces each occurrence individually). -/
def replaceIllegal (l : List Char) : List Char :=
  l.map (fun c => if illegalChar c then '_' else c)

/-- Worker for the second replace, `.replace(/\s+/g, '_')`: a maximal run of
whitespace becomes a single `'_'`.  The boolean records whether the previous
character was part of a whitespace run. -/
def collapseWsGo : Bool → List Char → List Char
  | _, [] => []
  | prevWs, c :: rest =>
    if jsWhitespace c then
      if prevWs then collapseWsGo true rest
      else '_' :: collapseWsGo true rest
    else c :: collapseWsGo false rest

/-- Second replace of `sanitizeFileName`: `.replace(/\s+/g, '_')`. -/
def collapseWs (l : List Char) : List Char := collapseWsGo false l

/-- The `.trim()` call: strip leading and trailing JavaScript whitespace. -/
def trimWs (l : List Char) : List Char :=
  ((l.dropWhile jsWhitespace).reverse.dropWhile jsWhitespace).reverse

/-- Embeds `sanitizeFileName`:
`name.replace(/[<>:"/\\|?*]/g,'_').replace(/\s+/g,'_').trim() || 'untitled'`.
The `|| 'untitled'` fallback fires exactly when the trimmed string is empty. -/
def sanitizeFileName (s : String) : String :=
  let cleaned := trimWs (collapseWs (replaceIllegal s.data))
  if cleaned.isEmpty then "untitled" else String.mk cleaned

/-! ## BLP1 encoder (`src/utils/encoders/blp.ts`) -/

/-- Little-endian byte quadruple written by `DataView.setUint32(off, v, true)`;
the value is wrapped modulo `2^32` as `setUint32` does. -/
def u32le (v : Nat) : List Nat :=
  [v % 4294967296 % 256,
   v % 4294967296 / 256 % 256,
   v % 4294967296 / 65536 % 256,
   v % 4294967296 / 16777216 % 256]

/-- Little-endian read of four bytes, for stating header properties. -/
def readU32le (l : List Nat) (off : Nat) : Nat :=
  l.getD off 0 + 256 * l.getD (off + 1) 0 + 65536 * l.getD (off + 2) 0 +
    16777216 * l.getD (off + 3) 0

/-- Little-endian read of two bytes. -/
def readU16le (l : List Nat) (off : Nat) : Nat :=
  l.getD off 0 + 256 * l.getD (off + 1) 0

/-- Embeds `encodeBlp`.  The source allocates a zero buffer of
`156 + jpegData.length` bytes and writes, via `setUint32(…, true)`:
magic `"BLP1"` at 0, content type 0 at 4, alpha bits 0 at 8, width at 12,
height at 16, flags 5 at 20, subtype 1 at 24, mipmap offset slot 0 = 156 at
28 (slots 1–15, bytes 32–91, stay zero), mipmap length slot 0 =
`jpegData.length` at 92 (slots 1–15, bytes 96–155, stay zero), and copies the
JPEG payload at 156.  The concatenation below places each field at exactly
those offsets, with the untouched buffer regions as explicit zero runs. -/
def encodeBlp (jpegData : List Nat) (width height : Nat) : List Nat :=
  [0x42, 0x4C, 0x50, 0x31]
    ++ u32le 0
    ++ u32le 0
    ++ u32le width
    ++ u32le height
    ++ u32le 5
    ++ u32le 1
    ++ u32le 156 ++ List.replicate 60 0
    ++ u32le jpegData.length ++ List.replicate 60 0
    ++ jpegData

/-! ## TGA encoder (`src/utils/encoders/tga.ts`) -/

/-- The `ImageData` consumed by `encodeTga`: RGBA bytes in row-major order. -/
structure ImageData where
  width : Nat
  height : Nat
  data : List Nat
deriving DecidableEq

/-- The 18-byte TGA header written by `encodeTga`: ID length 0, color map
type 0, image type 2, color map start/length/depth 0, x/y origin 0,
little-endian 16-bit width at 12 and height at 14 (wrapped modulo `2^16` by
`setUint16`), pixel depth 32 at 16, descriptor `8 | 0x20 = 0x28` at 17. -/
def tgaHeader (width height : Nat) : List Nat :=
  [0, 0, 2,
   0, 0,
   0, 0,
   0,
   0, 0,
   0, 0,
   width % 65536 % 256, width % 65536 / 256,
   height % 65536 % 256, height % 65536 / 256,
   32, 0x28]

/-- One iteration of the pixel loop of `encodeTga`: the `i`-th RGBA pixel is
written as the byte quadruple B, G, R, A. -/
def tgaPixel (data : List Nat) (i : Nat) : List Nat :=
  [data.getD (i * 4 + 2) 0, data.getD (i * 4 + 1) 0,
   data.getD (i * 4) 0, data.getD (i * 4 + 3) 0]

/-- The pixel loop of `encodeTga` run for iterations `0 … n-1`. -/
def tgaBody (data : List Nat) : Nat → List Nat
  | 0 => []
  | n + 1 => tgaBody data n ++ tgaPixel data (n)

/-- Embeds `encodeTga`: header followed by `width * height` BGRA pixels. -/
def encodeTga (img : ImageData) : List Nat :=
  tgaHeader img.width img.height ++ tgaBody img.data (img.width * img.height)

/-! ## Document model (input of the psd parsing module)

A raw node of the decoded document (the `any` nodes produced by `readPsd`):
name, type tag, hidden/visible flags, opacity, blend mode, bounding box,
optional canvas, text flag, children.  An absent `children` array and an
empty one are interchangeable in the source (`child.children || []`,
`child.children && child.children.length > 0`), so children are a plain
list.  A canvas is abstracted to its dimensions. -/

structure Canvas where
  width : Nat
  height : Nat
deriving DecidableEq

inductive RawNode where
  | mk (name : String) (typ : String) (hidden : Bool) (visible : Bool)
       (opacity : Option ℚ) (blendMode : Option String)
       (left top right bottom : Option ℤ)
       (canvas : Option Canvas) (text : Bool) (children : List RawNode)

def RawNode.name : RawNode → String
  | .mk n _ _ _ _ _ _ _ _ _ _ _ _ => n

def RawNode.typ : RawNode → String
  | .mk _ t _ _ _ _ _ _ _ _ _ _ _ => t

def RawNode.hidden : RawNode → Bool
  | .mk _ _ h _ _ _ _ _ _ _ _ _ _ => h

def RawNode.visible : RawNode → Bool
  | .mk _ _ _ v _ _ _ _ _ _ _ _ _ => v

def RawNode.opacity : RawNode → Option ℚ
  | .mk _ _ _ _ o _ _ _ _ _ _ _ _ => o

def RawNode.blendMode : RawNode → Option String
  | .mk _ _ _ _ _ b _ _ _ _ _ _ _ => b

def RawNode.left : RawNode → Option ℤ
  | .mk _ _ _ _ _ _ l _ _ _ _ _ _ => l

def RawNode.top : RawNode → Option ℤ
  | .mk _ _ _ _ _ _ _ t _ _ _ _ _ => t

def RawNode.right : RawNode → Option ℤ
  | .mk _ _ _ _ _ _ _ _ r _ _ _ _ => r

def RawNode.bottom : RawNode → Option ℤ
  | .mk _ _ _ _ _ _ _ _ _ b _ _ _ => b

def RawNode.canvas : RawNode → Option Canvas
  | .mk _ _ _ _ _ _ _ _ _ _ c _ _ => c

def RawNode.text : RawNode → Bool
  | .mk _ _ _ _ _ _ _ _ _ _ _ t _ => t

def RawNode.children : RawNode → List RawNode
  | .mk _ _ _ _ _ _ _ _ _ _ _ _ cs => cs

/-! ## Visible-leaf collection and group bounds

Both `flattenLayers` (helper `getVisibleLeafLayersForGroup`) and
`buildLayerTree` (helper `getVisibleLeaves`) contain the same traversal:
skip nodes with `hidden === true` or `visible === false`; recurse into a
node with a non-empty child array; otherwise push the node when
`item.canvas || (right - left) > 0 || (bottom - top) > 0 || item.text`,
with defaults `left = item.left ?? 0`, `top = item.top ?? 0`,
`right = item.right ?? left`, `bottom = item.bottom ?? top`. -/

/-- Defaulted bounding box of one raw node, as computed inside the
visible-leaf helpers. -/
def rawBox (item : RawNode) : ℤ × ℤ × ℤ × ℤ :=
  let left := item.left.getD 0
  let top := item.top.getD 0
  let right := item.right.getD left
  let bottom := item.bottom.getD top
  (left, top, right, bottom)

/-- Push condition of the visible-leaf helpers. -/
def visibleLeafQualifies (item : RawNode) : Bool :=
  let (left, top, right, bottom) := rawBox item
  item.canvas.isSome || decide (0 < right - left) || decide (0 < bottom - top)
    || item.text

mutual

/-- Embeds the shared `getVisibleLeafLayersForGroup` / `getVisibleLeaves`
helper (list of pushed items, in push order). -/
def getVisibleLeaves : List RawNode → List RawNode
  | [] => []
  | item :: rest => getVisibleLeavesItem item ++ getVisibleLeaves rest

/-- Loop body of the visible-leaf helper for one item: skip when hidden,
recurse when the child array is non-empty, otherwise push when the item
qualifies. -/
def getVisibleLeavesItem : RawNode → List RawNode
  | item@(.mk _ _ _ _ _ _ _ _ _ _ _ _ children) =>
    if item.hidden = true ∨ item.visible = false then []
    else
      match children with
      | _ :: _ => getVisibleLeaves children
      | [] => if visibleLeafQualifies item then [item] else []

end

/-- The `minLeft/minTop/maxRight/maxBottom` accumulator of the visible-leaf
helpers.  `hasContent` corresponds to the accumulator being `some`. -/
structure GroupBounds where
  minLeft : ℤ
  minTop : ℤ
  maxRight : ℤ
  maxBottom : ℤ
deriving DecidableEq

/-- Bounds update performed when a pushed leaf has
`(right - left) > 0 && (bottom - top) > 0`; mirrors the
`Math.min`/`Math.max` assignments and the `hasContent = true` flag. -/
def boundsStep (acc : Option GroupBounds) (item : RawNode) : Option GroupBounds :=
  let (left, top, right, bottom) := rawBox item
  if 0 < right - left ∧ 0 < bottom - top then
    match acc with
    | none => some ⟨left, top, right, bottom⟩
    | some b => some ⟨min b.minLeft left, min b.minTop top,
                      max b.maxRight right, max b.maxBottom bottom⟩
  else acc

/-- Bounds of the visible-leaf list: the inline `minLeft …` updates folded
over the pushed items.  `none` exactly when `hasContent` stays false. -/
def boundsOf (leaves : List RawNode) : Option GroupBounds :=
  leaves.foldl boundsStep none

/-! ## Compositing -/

/-- Alpha normalization appearing verbatim in the composite loops of
`flattenLayers` and `buildLayerTree`:
`opacity > 1 ? opacity / 255 : opacity`. -/
def normAlpha (opacity : ℚ) : ℚ :=
  if 1 < opacity then opacity / 255 else opacity

/-- Embeds `getLayerOpacity` (`src/utils/layerUtils.ts`, lines 201–211):
default 255, divide by 255 when above 1, clamp to `[0, 1]`. -/
def getLayerOpacity (opacity : Option ℚ) : ℚ :=
  let o := opacity.getD 255
  let o2 := if 1 < o then o / 255 else o
  max 0 (min 1 o2)

/-- One `ctx.drawImage` call of a composite loop: source canvas, offset
`(left ?? 0) - minLeft, (top ?? 0) - minTop`, and the `globalAlpha` set for
the call. -/
structure DrawOp where
  canvas : Canvas
  dx : ℤ
  dy : ℤ
  alpha : ℚ
deriving DecidableEq

/-- The composite loop shared by `flattenLayers` and `buildLayerTree`:
each pushed leaf that has a canvas produces one draw call, in list order. -/
def compositeOps (leafLayers : List RawNode) (minLeft minTop : ℤ) : List DrawOp :=
  leafLayers.filterMap fun l =>
    l.canvas.map fun cv =>
      { canvas := cv,
        dx := l.left.getD 0 - minLeft,
        dy := l.top.getD 0 - minTop,
        alpha := normAlpha (l.opacity.getD 255) }

/-- An image payload handle: either `canvasToDataURL` of a source canvas, or
the data URL of a freshly composited group canvas (recorded as its size and
draw calls). -/
inductive ImageUrl where
  | fromCanvas (c : Canvas)
  | composite (width height : ℤ) (ops : List DrawOp)
deriving DecidableEq

/-- Embeds `canvasToDataURL` (`src/utils/imageUtils.ts`): `null` for an
absent canvas, a data URL otherwise. -/
def canvasToDataURL (c : Option Canvas) : Option ImageUrl :=
  c.map ImageUrl.fromCanvas

/-! ## flattenLayers -/

/-- An element pushed onto `result` by `flattenLayers` (a `Layer` object). -/
structure FlatEntry where
  name : String
  typ : String
  isGroup : Bool
  visible : Bool
  opacity : ℚ
  blendMode : Option String
  left : ℤ
  right : ℤ
  top : ℤ
  bottom : ℤ
  width : ℤ
  height : ℤ
  imageUrl : Option ImageUrl
deriving DecidableEq

/-- The single-child dedup policy of `flattenLayers`:
`leafLayers.length > 1 || (leafLayers.length === 1 && leafLayers[0].canvas === undefined)`. -/
def shouldAddGroupPreview : List RawNode → Bool
  | [] => false
  | [l] => l.canvas.isNone
  | _ :: _ :: _ => true

mutual

/-- Embeds `flattenLayers` (psd parsing module, lines 162–283): the loop
over `children`, each iteration appending the entries produced for one
child. -/
def flattenLayers : List RawNode → List FlatEntry
  | [] => []
  | child :: rest => flattenChild child ++ flattenLayers rest

/-- Loop body of `flattenLayers` for one child.  A hidden child
(`hidden === true || visible === false`) contributes nothing.  A group child
contributes its recursively flattened children followed by an optional
`[Group]` composite entry, which is pushed only when `hasContent`, the dedup
policy allows it, the bounding box is positive, and the 2d context exists
(always, in this model).  A leaf child contributes one entry when it has a
name and canvas, positive extent, or text. -/
def flattenChild : RawNode → List FlatEntry
  | child@(.mk _ _ _ _ _ _ _ _ _ _ _ _ children) =>
    if child.hidden = true ∨ child.visible = false then []
    else if children.isEmpty = false ∨ child.typ = "group" then
      let subResult := flattenLayers children
      let leafLayers := getVisibleLeaves children
      let groupEntry : List FlatEntry :=
        match boundsOf leafLayers with
        | none => []
        | some b =>
          if shouldAddGroupPreview leafLayers then
            let groupWidth := b.maxRight - b.minLeft
            let groupHeight := b.maxBottom - b.minTop
            if 0 < groupWidth ∧ 0 < groupHeight then
              [{ name := "[Group] " ++ child.name, typ := "group", isGroup := true,
                 visible := true, opacity := child.opacity.getD 255, blendMode := none,
                 left := b.minLeft, right := b.maxRight,
                 top := b.minTop, bottom := b.maxBottom,
                 width := groupWidth, height := groupHeight,
                 imageUrl := some (.composite groupWidth groupHeight
                   (compositeOps leafLayers b.minLeft b.minTop)) }]
            else []
          else []
      subResult ++ groupEntry
    else
      let (left, top, right, bottom) := rawBox child
      let width : ℤ := match child.canvas with
        | some cv => (cv.width : ℤ)
        | none => right - left
      let height : ℤ := match child.canvas with
        | some cv => (cv.height : ℤ)
        | none => bottom - top
      if child.name ≠ "" ∧
          (child.canvas.isSome ∨ 0 < width ∨ 0 < height ∨ child.text = true) then
        [{ name := child.name, typ := child.typ, isGroup := false,
           visible := true, opacity := child.opacity.getD 255,
           blendMode := child.blendMode,
           left := left, right := right, top := top, bottom := bottom,
           width := width, height := height,
           imageUrl := canvasToDataURL child.canvas }]
      else []

end

/-! ## buildLayerTree -/

/-- The `layer` payload attached to leaf tree nodes (lines 457–466 of the
psd parsing module): bounds are passed through raw (`child.left`, … may be
undefined), width/height are the canvas dimensions or the defaulted
`(child.right ?? 0) - (child.left ?? 0)` difference. -/
structure LayerPayload where
  name : String
  typ : String
  visible : Bool
  opacity : ℚ
  blendMode : Option String
  left : Option ℤ
  right : Option ℤ
  top : Option ℤ
  bottom : Option ℤ
  width : ℤ
  height : ℤ
  imageUrl : Option ImageUrl
deriving DecidableEq

/-- The `LayerTreeNode` interface of the types module: every field that is
optional in TypeScript is an `Option`. -/
inductive LayerTreeNode where
  | mk (name path : String) (isGroup : Bool) (index : Option Nat)
       (imageUrl : Option ImageUrl) (width height : Option ℤ)
       (layer : Option LayerPayload) (children : Option (List LayerTreeNode))

def LayerTreeNode.name : LayerTreeNode → String
  | .mk n _ _ _ _ _ _ _ _ => n

def LayerTreeNode.path : LayerTreeNode → String
  | .mk _ p _ _ _ _ _ _ _ => p

def LayerTreeNode.isGroup : LayerTreeNode → Bool
  | .mk _ _ g _ _ _ _ _ _ => g

def LayerTreeNode.index : LayerTreeNode → Option Nat
  | .mk _ _ _ i _ _ _ _ _ => i

def LayerTreeNode.imageUrl : LayerTreeNode → Option ImageUrl
  | .mk _ _ _ _ u _ _ _ _ => u

def LayerTreeNode.width : LayerTreeNode → Option ℤ
  | .mk _ _ _ _ _ w _ _ _ => w

def LayerTreeNode.height : LayerTreeNode → Option ℤ
  | .mk _ _ _ _ _ _ h _ _ => h

def LayerTreeNode.layer : LayerTreeNode → Option LayerPayload
  | .mk _ _ _ _ _ _ _ l _ => l

def LayerTreeNode.children : LayerTreeNode → Option (List LayerTreeNode)
  | .mk _ _ _ _ _ _ _ _ c => c

mutual

/-- Embeds `buildLayerTree` (psd parsing module, lines 369–482).  The shared
mutable counter `ctx.index` is threaded explicitly: the result pairs the
built forest with the counter value after the loop. -/
def buildLayerTree : List RawNode → String → Nat → List LayerTreeNode × Nat
  | [], _, i => ([], i)
  | child :: rest, parentPath, i =>
    let (nodes, i1) := buildChild child parentPath i
    let (trees, i2) := buildLayerTree rest parentPath i1
    (nodes ++ trees, i2)

/-- Loop body of `buildLayerTree` for one child.  Only `hidden === true` is
skipped (unlike `flattenLayers`, `visible === false` is not consulted here).
For a group: visible leaves and bounds are gathered, the subtree is built
first (consuming counter values), the composite is rendered whenever
`hasContent` and the box is positive — with no dedup policy — and only then
the group's own index is taken from the counter.  For a leaf: the node is
emitted, consuming one index, when it has a name and canvas, positive
extent, or text. -/
def buildChild : RawNode → String → Nat → List LayerTreeNode × Nat
  | child@(.mk _ _ _ _ _ _ _ _ _ _ _ _ children), parentPath, i =>
    if child.hidden = true then ([], i)
    else
      let nodePath :=
        if parentPath = "" then child.name else parentPath ++ "/" ++ child.name
      if children.isEmpty = false ∨ child.typ = "group" then
        let leafLayers := getVisibleLeaves children
        let bounds := boundsOf leafLayers
        let (subTree, i1) := buildLayerTree children nodePath i
        let groupImageUrl : Option ImageUrl :=
          match bounds with
          | none => none
          | some b =>
            if 0 < b.maxRight - b.minLeft ∧ 0 < b.maxBottom - b.minTop then
              some (.composite (b.maxRight - b.minLeft) (b.maxBottom - b.minTop)
                (compositeOps leafLayers b.minLeft b.minTop))
            else none
        let groupIndex := i1
        ([LayerTreeNode.mk child.name nodePath true (some groupIndex) groupImageUrl
            (some (match bounds with | some b => b.maxRight - b.minLeft | none => 0))
            (some (match bounds with | some b => b.maxBottom - b.minTop | none => 0))
            none (some subTree)],
         i1 + 1)
      else
        let width : ℤ := match child.canvas with
          | some cv => (cv.width : ℤ)
          | none => child.right.getD 0 - child.left.getD 0
        let height : ℤ := match child.canvas with
          | some cv => (cv.height : ℤ)
          | none => child.bottom.getD 0 - child.top.getD 0
        if child.name ≠ "" ∧
            (child.canvas.isSome ∨ 0 < width ∨ 0 < height ∨ child.text = true) then
          let currentIndex := i
          let layer : LayerPayload :=
            { name := child.name, typ := child.typ, visible := child.visible,
              opacity := child.opacity.getD 255, blendMode := child.blendMode,
              left := child.left, right := child.right,
              top := child.top, bottom := child.bottom,
              width := width, height := height,
              imageUrl := canvasToDataURL child.canvas }
          ([LayerTreeNode.mk child.name nodePath false (some currentIndex)
              layer.imageUrl (some width) (some height) (some layer) none],
           i + 1)
        else ([], i)

end

/-! ## flattenTree (inside `extractLayerTree`) -/

/-- An element pushed by the `flattenTree` closure of `extractLayerTree`:
for a group with an `imageUrl`, the spread of the group node (with a
`[Group]` name prefix, recorded here by keeping the node); for a leaf, its
`layer` payload (possibly undefined). -/
inductive TreeFlatItem where
  | groupItem (node : LayerTreeNode)
  | leafItem (layer : Option LayerPayload)

mutual

/-- Embeds the `flattenTree` closure of `extractLayerTree`: children first,
then the group entry — pushed only when the group node carries an
`imageUrl`; leaves push their `layer` payload. -/
def flattenTree : List LayerTreeNode → List TreeFlatItem
  | [] => []
  | node :: rest => flattenTreeNode node ++ flattenTree rest

/-- Loop body of `flattenTree` for one node. -/
def flattenTreeNode : LayerTreeNode → List TreeFlatItem
  | node@(.mk _ _ _ _ _ _ _ _ children) =>
    if node.isGroup then
      (match children with
        | some cs => flattenTree cs
        | none => []) ++
      (if node.imageUrl.isSome then [.groupItem node] else [])
    else [.leafItem node.layer]

end

mutual

/-- Indices attached to the nodes of a built forest, in assignment order
(children before their group, as `buildLayerTree` consumes the counter). -/
def treeIndices : List LayerTreeNode → List Nat
  | [] => []
  | node :: rest => treeIndicesNode node ++ treeIndices rest

/-- Indices of one node and its descendants, children first. -/
def treeIndicesNode : LayerTreeNode → List Nat
  | node@(.mk _ _ _ _ _ _ _ _ children) =>
    (match children with
      | some cs => treeIndices cs
      | none => []) ++
    (match node.index with | some i => [i] | none => [])

end

mutual

/-- True when some node of the forest is a group carrying a composite
raster (`isGroup` with `imageUrl` present). -/
def treeHasGroupComposite : List LayerTreeNode → Bool
  | [] => false
  | node :: rest => treeHasGroupCompositeNode node || treeHasGroupComposite rest

/-- Group-composite check for one node and its descendants. -/
def treeHasGroupCompositeNode : LayerTreeNode → Bool
  | node@(.mk _ _ _ _ _ _ _ _ children) =>
    (node.isGroup && node.imageUrl.isSome) ||
    (match children with
      | some cs => treeHasGroupComposite cs
      | none => false)

end

/-! ## Flat export (`exportLayersToFolder`, `src/utils/exportUtils.ts`) -/

/-- The `{ success, failed }` tallies returned by both export entry points. -/
structure ExportResult where
  success : Nat
  failed : Nat
deriving DecidableEq

/-- An element of the `layers` argument of `exportLayersToFolder`. -/
structure LayerItem where
  imageUrl : String
  name : String
deriving DecidableEq

/-- Target path built for one item (lines 88–90):
`` `${folderPath}\\${safeName}.${targetExt}` `` with
`targetExt = options.format === 'jpg' ? 'jpg' : options.format`. -/
def itemPath (folderPath format : String) (layer : LayerItem) : String :=
  let safeName := sanitizeFileName layer.name
  let targetExt := if format = "jpg" then "jpg" else format
  folderPath ++ "\\" ++ safeName ++ "." ++ targetExt

/-- The per-item loop of `exportLayersToFolder`.  Each iteration runs the
whole try-block (sanitize, dispatch on format, write); the oracle
`writeFails` tells whether the block throws for the target path, in which
case the catch increments `failed` and the loop continues; otherwise
`success` is incremented.  The list of attempted paths is recorded. -/
def exportLoop (folderPath format : String) (writeFails : String → Bool) :
    List LayerItem → ExportResult → List String → ExportResult × List String
  | [], acc, attempted => (acc, attempted)
  | layer :: rest, acc, attempted =>
    let filePath := itemPath folderPath format layer
    if writeFails filePath then
      exportLoop folderPath format writeFails rest
        { acc with failed := acc.failed + 1 } (attempted ++ [filePath])
    else
      exportLoop folderPath format writeFails rest
        { acc with success := acc.success + 1 } (attempted ++ [filePath])

/-- Embeds `exportLayersToFolder` (lines 66–126): a cancelled folder picker
returns `{success: 0, failed: 0}` with no attempts; otherwise every layer is
attempted in order and the tallies are returned. -/
def exportLayersToFolder (layers : List LayerItem) (format : String)
    (folderPick : Option String) (writeFails : String → Bool) :
    ExportResult × List String :=
  match folderPick with
  | none => (⟨0, 0⟩, [])
  | some folderPath => exportLoop folderPath format writeFails layers ⟨0, 0⟩ []

/-! ## Hierarchical export (`src/utils/hierarchicalExport.ts`) -/

/-- A file-system side effect performed by the hierarchical export. -/
inductive FsEvent where
  | mkdirEv (path : String)
  | writeEv (path : String)
deriving DecidableEq

/-- Oracle for the external file-system collaborator: pre-existing
directories, and which `mkdir`/`writeFile` calls throw. -/
structure FsOracle where
  dirExists : String → Bool
  mkdirFails : String → Bool
  writeFails : String → Bool

/-- State threaded through `exportNode`: the closure counters `success` and
`failed`, plus the log of performed file-system effects. -/
structure ExportState where
  success : Nat
  failed : Nat
  events : List FsEvent
deriving DecidableEq

/-- One `writeFile` attempt guarded by a `try`/`catch` that increments the
counters (shared shape of the leaf branch and the group-composite branch of
`exportNode`). -/
def attemptWrite (o : FsOracle) (path : String) (st : ExportState) : ExportState :=
  if o.writeFails path then { st with failed := st.failed + 1 }
  else { st with success := st.success + 1, events := st.events ++ [.writeEv path] }

mutual

/-- Embeds `exportNode` (lines 63–157).  A node whose defined index is in
`hiddenLayers` is skipped outright.  A group node with a children array:
check-then-create the folder (a `mkdir` failure is caught, counts one
`failed`, and abandons the node), recurse into the children, then — only if
`node.layer && node.layer.imageUrl` — write the composite as
`safeName.format` inside the *current* (parent) path.  Any other node with
`node.layer && node.layer.imageUrl`: write it inside the current path.
Anything else is skipped with a warning. -/
def exportNode (hidden : List Nat) (o : FsOracle) (format : String) :
    LayerTreeNode → String → ExportState → ExportState
  | node, currentPath, st =>
    if (match node.index with
        | some i => hidden.contains i
        | none => false) then st
    else
      let safeName := sanitizeFileName node.name
      match node with
      | .mk _ _ true _ _ _ _ _ (some cs) =>
        let folderPath := currentPath ++ "\\" ++ safeName
        let folderExists :=
          o.dirExists folderPath || st.events.contains (.mkdirEv folderPath)
        if folderExists = false ∧ o.mkdirFails folderPath then
          { st with failed := st.failed + 1 }
        else
          let st1 :=
            if folderExists then st
            else { st with events := st.events ++ [.mkdirEv folderPath] }
          let st2 := exportNodes hidden o format cs folderPath st1
          match node.layer with
          | some l =>
            if l.imageUrl.isSome then
              attemptWrite o (currentPath ++ "\\" ++ safeName ++ "." ++ format) st2
            else st2
          | none => st2
      | _ =>
        match node.layer with
        | some l =>
          if l.imageUrl.isSome then
            attemptWrite o (currentPath ++ "\\" ++ safeName ++ "." ++ format) st
          else st
        | none => st

/-- The `for (const child of node.children)` loop of `exportNode`, also used
for the root loop of `exportLayerTreeWithStructure`. -/
def exportNodes (hidden : List Nat) (o : FsOracle) (format : String) :
    List LayerTreeNode → String → ExportState → ExportState
  | [], _, st => st
  | node :: rest, currentPath, st =>
    exportNodes hidden o format rest currentPath
      (exportNode hidden o format node currentPath st)

end

/-- Embeds `exportLayerTreeWithStructure` (lines 36–166): a cancelled root
picker returns zero tallies and performs nothing; otherwise every root node
is exported with the picked root as the current path. -/
def exportLayerTreeWithStructure (tree : List LayerTreeNode) (format : String)
    (hidden : List Nat) (o : FsOracle) (rootPick : Option String) : ExportState :=
  match rootPick with
  | none => ⟨0, 0, []⟩
  | some rootPath => exportNodes hidden o format tree rootPath ⟨0, 0, []⟩

/-! ## Theorems -/

/-- A character that may appear in a sanitized name: neither one of the
illegal characters nor whitespace. -/
def okChar (c : Char) : Bool := !illegalChar c && !jsWhitespace c

lemma replaceIllegal_all (l : List Char) :
    (replaceIllegal l).all (fun c => !illegalChar c) = true := by
  induction l with
  | nil => rfl
  | cons c rest ih =>
    simp only [replaceIllegal, List.map_cons, List.all_cons, Bool.and_eq_true] at *
    refine ⟨?_, ih⟩
    by_cases h : illegalChar c = true
    · simp only [h, if_true]
      decide
    · have hf : illegalChar c = false := by
        cases hi : illegalChar c
        · rfl
        · exact absurd hi h
      simp [hf]

lemma collapseWsGo_all : ∀ (l : List Char) (prev : Bool),
    l.all (fun c => !illegalChar c) = true →
    (collapseWsGo prev l).all okChar = true := by
  intro l
  induction l with
  | nil => intro prev _; rfl
  | cons c rest ih =>
    intro prev h
    simp only [List.all_cons, Bool.and_eq_true] at h
    by_cases hw : jsWhitespace c = true
    · cases prev with
      | true =>
        have heq : collapseWsGo true (c :: rest) = collapseWsGo true rest := by
          simp [collapseWsGo, hw]
        rw [heq]
        exact ih true h.2
      | false =>
        have heq : collapseWsGo false (c :: rest) = '_' :: collapseWsGo true rest := by
          simp [collapseWsGo, hw]
        rw [heq, List.all_cons, Bool.and_eq_true]
        exact ⟨by decide, ih true h.2⟩
    · have hjw : jsWhitespace c = false := by
        cases hj : jsWhitespace c
        · rfl
        · exact absurd hj hw
      have heq : collapseWsGo prev (c :: rest) = c :: collapseWsGo false rest := by
        simp [collapseWsGo, hjw]
      rw [heq, List.all_cons, Bool.and_eq_true]
      refine ⟨?_, ih false h.2⟩
      simp [okChar, hjw, h.1]

lemma trimWs_all (l : List Char) (p : Char → Bool) (h : l.all p = true) :
    (trimWs l).all p = true := by
  rw [List.all_eq_true] at h ⊢
  intro c hc
  apply h
  simp only [trimWs, List.mem_reverse] at hc
  exact (List.dropWhile_sublist _).mem ((List.mem_reverse).mp
    ((List.dropWhile_sublist _).mem hc))

lemma sanitizeFileName_chars (s : String) :
    (sanitizeFileName s).data.all okChar = true := by
  unfold sanitizeFileName
  by_cases h : (trimWs (collapseWs (replaceIllegal s.data))).isEmpty = true
  · simp only [h, if_true]
    decide
  · simp only [h, if_false]
    exact trimWs_all _ _ (collapseWsGo_all _ false (replaceIllegal_all s.data))

/-- C4 (amended): `sanitizeFileName` replaces each of the characters
`<>:"/\|?*` by `'_'` (it does not strip them), collapses whitespace runs to
`'_'`, trims, and falls back to `"untitled"` only when the cleaned result is
empty; consequently the result never contains an illegal or whitespace
character and is never empty.  `sanitizeFileName "a/b:c*d" = "a_b_c_d"`,
but `sanitizeFileName "***" = "___"` (not `"untitled"`);
`sanitizeFileName "" = "untitled"`. -/
theorem C4_sanitizeFileName_behavior (s : String) :
    sanitizeFileName s ≠ "" ∧
    (sanitizeFileName s).data.all okChar = true ∧
    sanitizeFileName "a/b:c*d" = "a_b_c_d" ∧
    sanitizeFileName "***" = "___" ∧
    sanitizeFileName "" = "untitled" := by
  have hne : sanitizeFileName s ≠ "" := by
    unfold sanitizeFileName
    by_cases h : (trimWs (collapseWs (replaceIllegal s.data))).isEmpty = true
    · simp only [h, if_true]
      decide
    · simp only [h, if_false]
      intro hcontra
      apply h
      have hd : trimWs (collapseWs (replaceIllegal s.data)) = [] :=
        congrArg String.data hcontra
      rw [hd]
      rfl
  exact ⟨hne, sanitizeFileName_chars s, by decide, by decide, by decide⟩

/-- C4 counterexample: the spec demands that sanitization *strip* the
illegal characters, with `sanitize("***") = "untitled"`; the code replaces
each of them by `'_'`, so `sanitizeFileName "***" = "___" ≠ "untitled"`. -/
theorem C4_sanitizeFileName_cex :
    sanitizeFileName "***" = "___" ∧ sanitizeFileName "***" ≠ "untitled" := by
  decide

set_option maxHeartbeats 2000000 in
/-- C5: byte-exact layout of the BLP1 container produced by `encodeBlp`:
magic `"BLP1"` (bytes 66, 76, 80, 49), content type 0 at offset 4, alpha
bits 0 at 8, width at 12, height at 16, flags 5 at 20, subtype 1 at 24,
mipmap offset slot 0 = 156 at 28, mipmap length slot 0 = payload length at
92, all other mipmap slots zero, the JPEG payload verbatim from offset 156,
and total length `156 + payload length`. -/
theorem C5_encodeBlp_header (jpegData : List Nat) (width height : Nat)
    (hw : width < 4294967296) (hh : height < 4294967296)
    (hl : jpegData.length < 4294967296) :
    (encodeBlp jpegData width height).take 4 = [66, 76, 80, 49] ∧
    readU32le (encodeBlp jpegData width height) 4 = 0 ∧
    readU32le (encodeBlp jpegData width height) 8 = 0 ∧
    readU32le (encodeBlp jpegData width height) 12 = width ∧
    readU32le (encodeBlp jpegData width height) 16 = height ∧
    readU32le (encodeBlp jpegData width height) 20 = 5 ∧
    readU32le (encodeBlp jpegData width height) 24 = 1 ∧
    readU32le (encodeBlp jpegData width height) 28 = 156 ∧
    readU32le (encodeBlp jpegData width height) 92 = jpegData.length ∧
    (∀ k, 1 ≤ k → k < 16 →
      readU32le (encodeBlp jpegData width height) (28 + 4 * k) = 0 ∧
      readU32le (encodeBlp jpegData width height) (92 + 4 * k) = 0) ∧
    (encodeBlp jpegData width height).drop 156 = jpegData ∧
    (encodeBlp jpegData width height).length = 156 + jpegData.length := by
  refine ⟨?_, ?_, ?_, ?_, ?_, ?_, ?_, ?_, ?_, ?_, ?_, ?_⟩
  · simp [encodeBlp, u32le]
  · simp [readU32le, encodeBlp, u32le]
  · simp [readU32le, encodeBlp, u32le]
  · have h12 : readU32le (encodeBlp jpegData width height) 12 =
        width % 4294967296 % 256 + 256 * (width % 4294967296 / 256 % 256) +
        65536 * (width % 4294967296 / 65536 % 256) +
        16777216 * (width % 4294967296 / 16777216 % 256) := by
      simp [readU32le, encodeBlp, u32le]
    rw [h12]
    omega
  · have h16 : readU32le (encodeBlp jpegData width height) 16 =
        height % 4294967296 % 256 + 256 * (height % 4294967296 / 256 % 256) +
        65536 * (height % 4294967296 / 65536 % 256) +
        16777216 * (height % 4294967296 / 16777216 % 256) := by
      simp [readU32le, encodeBlp, u32le]
    rw [h16]
    omega
  · simp [readU32le, encodeBlp, u32le, List.replicate]
  · simp [readU32le, encodeBlp, u32le, List.replicate]
  · simp [readU32le, encodeBlp, u32le, List.replicate]
  · have h92 : readU32le (encodeBlp jpegData width height) 92 =
        jpegData.length % 4294967296 % 256 +
        256 * (jpegData.length % 4294967296 / 256 % 256) +
        65536 * (jpegData.length % 4294967296 / 65536 % 256) +
        16777216 * (jpegData.length % 4294967296 / 16777216 % 256) := by
      simp [readU32le, encodeBlp, u32le, List.replicate]
    rw [h92]
    omega
  · intro k hk1 hk2
    interval_cases k <;>
      refine ⟨by simp [readU32le, encodeBlp, u32le, List.replicate],
              by simp [readU32le, encodeBlp, u32le, List.replicate]⟩
  · simp [encodeBlp, u32le, List.replicate]
  · simp only [encodeBlp, List.length_append, List.length_replicate]
    simp [u32le]

/-- C5 witness: the header properties at a concrete payload and size. -/
theorem C5_encodeBlp_header_witness :
    (encodeBlp [10, 20, 30] 2 3).take 4 = [66, 76, 80, 49] ∧
    readU32le (encodeBlp [10, 20, 30] 2 3) 12 = 2 :=
  ⟨(C5_encodeBlp_header [10, 20, 30] 2 3 (by decide) (by decide) (by decide)).1,
   (C5_encodeBlp_header [10, 20, 30] 2 3 (by decide) (by decide)
     (by decide)).2.2.2.1⟩

lemma tgaBody_length (data : List Nat) (n : Nat) :
    (tgaBody data n).length = 4 * n := by
  induction n with
  | zero => rfl
  | succ n ih =>
    rw [tgaBody, List.length_append, ih]
    rfl

lemma tgaBody_pixel (data : List Nat) (n i : Nat) (h : i < n) :
    ((tgaBody data n).drop (4 * i)).take 4 = tgaPixel data i := by
  induction n with
  | zero => omega
  | succ n ih =>
    rcases Nat.lt_succ_iff_lt_or_eq.mp h with h' | h'
    · have hA : (tgaBody data n).length = 4 * n := tgaBody_length data n
      rw [tgaBody, List.drop_append_eq_append_drop,
        List.take_append_eq_append_take]
      have hXlen : ((tgaBody data n).drop (4 * i)).length = 4 * n - 4 * i := by
        rw [List.length_drop, hA]
      have h4 : 4 - ((tgaBody data n).drop (4 * i)).length = 0 := by
        rw [hXlen]; omega
      rw [h4, List.take_zero, List.append_nil]
      exact ih h'
    · subst h'
      rw [tgaBody]
      have hA : 4 * i = (tgaBody data i).length := (tgaBody_length data i).symm
      rw [hA, List.drop_left]
      rfl

lemma encodeTga_drop_pixel (img : ImageData) (i : Nat)
    (h : i < img.width * img.height) :
    ((encodeTga img).drop (18 + 4 * i)).take 4 = tgaPixel img.data i := by
  have hsplit : (encodeTga img).drop (18 + 4 * i) =
      (tgaBody img.data (img.width * img.height)).drop (4 * i) := by
    rw [encodeTga, List.drop_append_eq_append_drop]
    have h18 : (tgaHeader img.width img.height).length = 18 := rfl
    rw [h18, List.drop_eq_nil_of_le (by rw [h18]; omega), List.nil_append]
    congr 1
    omega
  rw [hsplit]
  exact tgaBody_pixel img.data _ i h

/-- C6: byte-exact layout of the TGA buffer produced by `encodeTga` for an
image with 16-bit-representable dimensions: total length
`18 + 4·width·height`, image type 2 at byte 2, zeroed color-map fields,
little-endian width at 12 and height at 14, pixel depth 32, descriptor
`0x28`, and for each pixel index `i` the 4 bytes at `18 + 4·i` are the
source RGBA pixel `i` reordered to BGRA. -/
theorem C6_encodeTga_format (img : ImageData)
    (hdata : img.data.length = 4 * (img.width * img.height))
    (hw : img.width < 65536) (hh : img.height < 65536) :
    (encodeTga img).length = 18 + 4 * (img.width * img.height) ∧
    (encodeTga img).getD 2 0 = 2 ∧
    ((encodeTga img).getD 1 0 = 0 ∧ (encodeTga img).getD 3 0 = 0 ∧
     (encodeTga img).getD 4 0 = 0 ∧ (encodeTga img).getD 5 0 = 0 ∧
     (encodeTga img).getD 6 0 = 0 ∧ (encodeTga img).getD 7 0 = 0) ∧
    readU16le (encodeTga img) 12 = img.width ∧
    readU16le (encodeTga img) 14 = img.height ∧
    (encodeTga img).getD 16 0 = 32 ∧
    (encodeTga img).getD 17 0 = 40 ∧
    ∀ i, i < img.width * img.height →
      ((encodeTga img).drop (18 + 4 * i)).take 4 =
        [img.data.getD (i * 4 + 2) 0, img.data.getD (i * 4 + 1) 0,
         img.data.getD (i * 4) 0, img.data.getD (i * 4 + 3) 0] := by
  refine ⟨?_, rfl, ⟨rfl, rfl, rfl, rfl, rfl, rfl⟩, ?_, ?_, rfl, rfl, ?_⟩
  · have h18 : (tgaHeader img.width img.height).length = 18 := rfl
    rw [encodeTga, List.length_append, h18, tgaBody_length]
  · have h12 : readU16le (encodeTga img) 12 =
        img.width % 65536 % 256 + 256 * (img.width % 65536 / 256) := rfl
    rw [h12]
    omega
  · have h14 : readU16le (encodeTga img) 14 =
        img.height % 65536 % 256 + 256 * (img.height % 65536 / 256) := rfl
    rw [h14]
    omega
  · intro i hi
    exact encodeTga_drop_pixel img i hi

/-- C6 witness: the format properties at a concrete 1×2 image. -/
theorem C6_encodeTga_format_witness :
    readU16le (encodeTga ⟨1, 2, [9, 8, 7, 6, 5, 4, 3, 2]⟩) 12 = 1 ∧
    ((encodeTga ⟨1, 2, [9, 8, 7, 6, 5, 4, 3, 2]⟩).drop (18 + 4 * 0)).take 4 =
      [7, 8, 9, 6] := by
  have hmain := C6_encodeTga_format ⟨1, 2, [9, 8, 7, 6, 5, 4, 3, 2]⟩
    (by decide) (by decide) (by decide)
  refine ⟨hmain.2.2.2.1, ?_⟩
  have := hmain.2.2.2.2.2.2.2 0 (by decide)
  simpa using this

/-- C10 (implicit): `encodeTga` stores the dimensions as 16-bit fields, so
the header words at offsets 12 and 14 always hold `width mod 65536` and
`height mod 65536` while the buffer still holds `width·height` 4-byte
pixels; the header words equal the true dimensions exactly when both are
below 65536. -/
theorem C10_encodeTga_dimension_wraparound (img : ImageData) :
    readU16le (encodeTga img) 12 = img.width % 65536 ∧
    readU16le (encodeTga img) 14 = img.height % 65536 ∧
    (encodeTga img).length = 18 + 4 * (img.width * img.height) ∧
    ((readU16le (encodeTga img) 12 = img.width ∧
      readU16le (encodeTga img) 14 = img.height) ↔
     (img.width < 65536 ∧ img.height < 65536)) := by
  have h12 : readU16le (encodeTga img) 12 =
      img.width % 65536 % 256 + 256 * (img.width % 65536 / 256) := rfl
  have h14 : readU16le (encodeTga img) 14 =
      img.height % 65536 % 256 + 256 * (img.height % 65536 / 256) := rfl
  have hlen : (encodeTga img).length = 18 + 4 * (img.width * img.height) := by
    have h18 : (tgaHeader img.width img.height).length = 18 := rfl
    rw [encodeTga, List.length_append, h18, tgaBody_length]
  refine ⟨by rw [h12]; omega, by rw [h14]; omega, hlen, ?_⟩
  constructor
  · rintro ⟨hwid, hhgt⟩
    rw [h12] at hwid
    rw [h14] at hhgt
    constructor <;> omega
  · rintro ⟨hwid, hhgt⟩
    constructor
    · rw [h12]; omega
    · rw [h14]; omega

lemma filter_length_split (l : List LayerItem) (p : LayerItem → Bool) :
    (l.filter p).length + (l.filter fun a => !p a).length = l.length := by
  induction l with
  | nil => rfl
  | cons a rest ih =>
    by_cases hp : p a = true
    · simp [List.filter_cons, hp, ← ih]
      omega
    · simp [List.filter_cons, hp, ← ih]
      omega

lemma exportLoop_spec (folderPath format : String) (writeFails : String → Bool) :
    ∀ (layers : List LayerItem) (acc : ExportResult) (attempted : List String),
    exportLoop folderPath format writeFails layers acc attempted =
      (⟨acc.success +
          (layers.filter fun l => !writeFails (itemPath folderPath format l)).length,
        acc.failed +
          (layers.filter fun l => writeFails (itemPath folderPath format l)).length⟩,
       attempted ++ layers.map (itemPath folderPath format)) := by
  intro layers
  induction layers with
  | nil => intro acc attempted; simp [exportLoop]
  | cons layer rest ih =>
    intro acc attempted
    by_cases hf : writeFails (itemPath folderPath format layer) = true
    · rw [exportLoop, if_pos hf, ih]
      simp [List.filter_cons, hf]
      omega
    · rw [exportLoop, if_neg hf]
      rw [ih]
      have hf' : writeFails (itemPath folderPath format layer) = false := by
        cases hfv : writeFails (itemPath folderPath format layer)
        · rfl
        · exact absurd hfv hf
      simp [List.filter_cons, hf']
      omega

/-- C7: flat export with a destination attempts every item in order and
returns `{success: N - M, failed: M}` where `M` is the number of items whose
write/encode step throws; no failure aborts the loop. -/
theorem C7_exportLayersToFolder_tallies (layers : List LayerItem)
    (format folderPath : String) (writeFails : String → Bool) :
    (exportLayersToFolder layers format (some folderPath) writeFails).1.failed =
      (layers.filter fun l => writeFails (itemPath folderPath format l)).length ∧
    (exportLayersToFolder layers format (some folderPath) writeFails).1.success =
      layers.length -
        (layers.filter fun l => writeFails (itemPath folderPath format l)).length ∧
    (exportLayersToFolder layers format (some folderPath) writeFails).2 =
      layers.map (itemPath folderPath format) := by
  have hspec := exportLoop_spec folderPath format writeFails layers ⟨0, 0⟩ []
  have hsplit := filter_length_split layers
    (fun l => writeFails (itemPath folderPath format l))
  refine ⟨?_, ?_, ?_⟩
  · rw [exportLayersToFolder, hspec]
    show 0 + _ = _
    omega
  · rw [exportLayersToFolder, hspec]
    show 0 + _ = _
    omega
  · rw [exportLayersToFolder, hspec]
    show [] ++ _ = _
    simp

/-- Oracle on which every file-system call succeeds and no directory
pre-exists. -/
def trivialOracle : FsOracle :=
  ⟨fun _ => false, fun _ => false, fun _ => false⟩

/-- C8: a node whose (defined) index belongs to the hidden set is skipped
outright by `exportNode`: the state is returned untouched, so no file or
directory for the node or any of its descendants is created and the
counters do not move. -/
theorem C8_exportNode_hidden_skip (hidden : List Nat) (o : FsOracle)
    (format : String) (node : LayerTreeNode) (currentPath : String)
    (st : ExportState) (h : Nat) (hidx : node.index = some h)
    (hmem : hidden.contains h = true) :
    exportNode hidden o format node currentPath st = st := by
  cases node with
  | mk name path isGroup index imageUrl width height layer children =>
    simp only [LayerTreeNode.index] at hidx
    subst hidx
    have hcond : (match (some h : Option Nat) with
        | some i => hidden.contains i
        | none => false) = true := hmem
    cases isGroup <;> cases children <;> exact if_pos hcond

/-- C8 witness: a concrete hidden node is skipped. -/
theorem C8_exportNode_hidden_skip_witness :
    exportNode [3] trivialOracle "png"
      (.mk "n" "n" false (some 3) none none none none none) "r" ⟨0, 0, []⟩ =
      ⟨0, 0, []⟩ :=
  C8_exportNode_hidden_skip [3] trivialOracle "png"
    (.mk "n" "n" false (some 3) none none none none none) "r" ⟨0, 0, []⟩ 3 rfl rfl

/-- C9: alpha normalization: a raw opacity above 1 is divided by 255, a
value already in `[0, 1]` passes through (both for the composite-loop
expression `normAlpha` and for `getLayerOpacity`); in particular opacity
128 renders at `128/255` and opacity 255 at full opacity 1. -/
theorem C9_opacity_normalization (x : ℚ) :
    (1 < x → normAlpha x = x / 255) ∧
    (0 ≤ x → x ≤ 1 → normAlpha x = x) ∧
    (0 ≤ x → x ≤ 1 → getLayerOpacity (some x) = x) ∧
    normAlpha 128 = 128 / 255 ∧
    normAlpha 255 = 1 ∧
    getLayerOpacity (some 128) = 128 / 255 ∧
    getLayerOpacity (some 255) = 1 := by
  refine ⟨?_, ?_, ?_, ?_, ?_, ?_, ?_⟩
  · intro hx
    simp [normAlpha, hx]
  · intro h0 h1
    have hn : ¬(1 < x) := not_lt.mpr h1
    simp [normAlpha, hn]
  · intro h0 h1
    have hn : ¬((1 : ℚ) < x) := not_lt.mpr h1
    simp only [getLayerOpacity, Option.getD_some, hn, if_false]
    rw [min_eq_right h1, max_eq_right h0]
  · norm_num [normAlpha]
  · norm_num [normAlpha]
  · rw [getLayerOpacity]
    norm_num
  · rw [getLayerOpacity]
    norm_num

/-- C9 witness: the theorem applied at opacity 128 and at a fractional
opacity one half. -/
theorem C9_opacity_normalization_witness :
    normAlpha 128 = 128 / 255 ∧ normAlpha (1 / 2) = 1 / 2 ∧
    getLayerOpacity (some (1 / 2)) = 1 / 2 :=
  ⟨(C9_opacity_normalization 128).2.2.2.1,
   (C9_opacity_normalization (1 / 2)).2.1 (by norm_num) (by norm_num),
   (C9_opacity_normalization (1 / 2)).2.2.1 (by norm_num) (by norm_num)⟩

/-- C3 (code-bug evidence): a group node carrying its composite raster the
way `buildLayerTree` actually stores it — in `node.imageUrl`, with no
`layer` field — produces no composite file under `exportNode`, although the
source's own comment says the composite is to be exported as a same-named
file; only the folder is created and both counters stay 0, because the
code's guard reads `node.layer && node.layer.imageUrl`, which is never set
for group nodes. -/
theorem C3_group_composite_never_written :
    (LayerTreeNode.mk "g" "g" true (some 0) (some (.composite 10 10 []))
        (some 10) (some 10) none (some [])).imageUrl.isSome = true ∧
    exportNode [] trivialOracle "png"
      (.mk "g" "g" true (some 0) (some (.composite 10 10 [])) (some 10)
        (some 10) none (some [])) "root" ⟨0, 0, []⟩ =
      ⟨0, 0, [.mkdirEv "root\\g"]⟩ :=
  ⟨rfl, rfl⟩

/-- Example document nodes used by the traversal counterexamples: a leaf
with its own canvas, a group containing exactly that leaf, and an empty
group tagged with the `'group'` type. -/
def exLeaf : RawNode :=
  .mk "leaf" "normal" false true (some 255) (some "normal")
     (some 0) (some 0) (some 10) (some 10) (some ⟨10, 10⟩) false []

def exGroup : RawNode :=
  .mk "g" "group" false true none none none none none none none false [exLeaf]

def exEmptyGroup : RawNode :=
  .mk "g" "group" false true none none none none none none none false []

/-- C1 (code-bug evidence): the two traversals disagree.  For the document
consisting of one empty group of type `'group'`, `flattenLayers` produces no
entries at all (so its position set is empty), while `buildLayerTree`
unconditionally assigns the group index 0 and advances the shared counter to
1; the `flattenTree` pass of `extractLayerTree` also emits no entry for the
composite-less group even though the group owns index 0.  The set of indices
attached by the tree traversal is therefore `{0}` while both flat-list
traversals produce the empty position set. -/
theorem C1_index_sync_divergence :
    flattenLayers [exEmptyGroup] = [] ∧
    (buildLayerTree [exEmptyGroup] "" 0).2 = 1 ∧
    treeIndices (buildLayerTree [exEmptyGroup] "" 0).1 = [0] ∧
    flattenTree (buildLayerTree [exEmptyGroup] "" 0).1 = [] :=
  ⟨rfl, rfl, rfl, rfl⟩

/-- C2 (amended): the dedup rule holds for `flattenLayers`: a non-hidden
group-classified child whose visible-leaf list is exactly one leaf that
already carries its own canvas contributes exactly its children's flattened
entries — no separate group-composite entry.  (`buildLayerTree` applies no
such rule; see the counterexample.) -/
theorem C2_flattenLayers_dedup (child : RawNode) (l : RawNode)
    (hhid : child.hidden = false) (hvis : child.visible = true)
    (hgrp : child.children.isEmpty = false ∨ child.typ = "group")
    (hleaves : getVisibleLeaves child.children = [l])
    (hcanvas : l.canvas.isSome = true) :
    flattenChild child = flattenLayers child.children := by
  cases child with
  | mk name typ hidden visible opacity blendMode left top right bottom canvas
      text children =>
    simp only [RawNode.hidden] at hhid
    simp only [RawNode.visible] at hvis
    simp only [RawNode.children] at hleaves
    simp only [RawNode.children, RawNode.typ] at hgrp
    subst hhid hvis
    have hadd : shouldAddGroupPreview (getVisibleLeaves children) = false := by
      simp only [hleaves, shouldAddGroupPreview]
      cases hc : l.canvas with
      | some c => rfl
      | none =>
        rw [hc] at hcanvas
        exact absurd hcanvas (by decide)
    rw [flattenChild]
    simp only [RawNode.hidden, RawNode.visible, RawNode.typ, RawNode.children,
      RawNode.name, RawNode.opacity]
    rw [if_neg (by simp), if_pos hgrp]
    cases hb : boundsOf (getVisibleLeaves children) with
    | none => simp [hb]
    | some b => simp [hb, hadd]

/-- C2 witness: the amended dedup statement at the concrete one-leaf
group. -/
theorem C2_flattenLayers_dedup_witness :
    flattenChild exGroup = flattenLayers [exLeaf] :=
  C2_flattenLayers_dedup exGroup exLeaf rfl rfl (Or.inr rfl) rfl rfl

/-- C2 counterexample: for the group with exactly one visible, non-group,
canvas-bearing leaf, the tree built by `buildLayerTree` does contain a
group-composite entry — the group node carries a composite `imageUrl`
(there is no dedup check in `buildLayerTree`) — and the `flattenTree` pass
emits 2 entries (leaf plus group composite) where `flattenLayers` emits
only 1. -/
theorem C2_buildLayerTree_no_dedup_cex :
    getVisibleLeaves [exLeaf] = [exLeaf] ∧
    exLeaf.canvas.isSome = true ∧
    treeHasGroupComposite (buildLayerTree [exGroup] "" 0).1 = true ∧
    (flattenTree (buildLayerTree [exGroup] "" 0).1).length = 2 ∧
    (flattenLayers [exGroup]).length = 1 :=
  ⟨rfl, rfl, rfl, rfl, rfl⟩

end PdsPreView
